import Mathlib

/-!
Shallow embedding of the 52-week-high tracker of `generate_dashboard.py`
(the stateful core of the dashboard generator), together with the snapshot
builder, the persistence helpers, and the load of the durable store.

Python floats are modelled exactly as rationals (`ℚ`); `None` and float NaN
are modelled by dedicated constructors of `PyVal`, since the script's guards
(`if v`, `pd.isna(v)`, `v > 0`) distinguish them.
-/

/-- A Python value as it flows through the per-field lookups of the script:
`none` models Python `None` (an explicit `None` stored by `batch_download`),
`nan` a float NaN, and `num q` an ordinary float, modelled exactly. -/
inductive PyVal where
  | none
  | nan
  | num (q : ℚ)
deriving DecidableEq

/-- Python truthiness: `None` is falsy, NaN is truthy, a number is truthy
iff it is nonzero. -/
def PyVal.truthy : PyVal → Bool
  | .none => false
  | .nan => true
  | .num q => decide (q ≠ 0)

/-- `pd.isna`: true on `None` and NaN, false on numbers. -/
def PyVal.isna : PyVal → Bool
  | .none => true
  | .nan => true
  | .num _ => false

/-- `volume / avg` for a known positive numeric `avg` (line 189): Python
raises a TypeError on `None` (modelled by `Option.none`, swallowed by the
caller's catch-all `except`), propagates NaN, and divides numbers. -/
def pyDivByNum (v : PyVal) (a : ℚ) : Option PyVal :=
  match v with
  | .none => Option.none
  | .nan => some .nan
  | .num q => some (.num (q / a))

/-- `d.get(ticker)` on a fetched column: default Python `None` (line 180). -/
def getNone (m : String → Option PyVal) (t : String) : PyVal := (m t).getD .none

/-- `d.get(ticker, 0)` on a fetched column: default `0` (lines 188, 241, 257). -/
def getZero (m : String → Option PyVal) (t : String) : PyVal := (m t).getD (.num 0)

/-- The merged per-column lookups that `batch_download` produces
(`today_data`): an `Option.none` entry means the ticker key is absent from
that column's dict; a present entry is the stored Python value. -/
structure TodayData where
  close : String → Option PyVal
  openPrice : String → Option PyVal
  volume : String → Option PyVal

/-- One element of the `stocks` list built at lines 196-205: a validated
daily snapshot.  `close` is a genuine nonzero number (the snapshot is
discarded otherwise); `volume`, `avgVolume` and `volRatio` keep their raw
Python values. -/
structure Stock where
  ticker : String
  close : ℚ
  changePct : ℚ
  volume : PyVal
  avgVolume : PyVal
  volRatio : PyVal
deriving DecidableEq

/-- `(volume / avg_vol) if avg_vol and avg_vol > 0 else 0` (line 189).
NaN `avg_vol` is truthy but `NaN > 0` is false, so it also yields `0`. -/
def volRatioOf (volume avgVol : PyVal) : Option PyVal :=
  match avgVol with
  | .num a => if 0 < a then pyDivByNum volume a else some (.num 0)
  | _ => some (.num 0)

/-- Build the snapshot of one ticker (lines 179-205).  Returns `Option.none`
when the `continue` at line 185 fires (close missing/NaN/zero) or when the
catch-all `except` at line 206 swallows the TypeError a `None` volume raises
in `volume / avg_vol`. -/
def mkStock (td : TodayData) (volData : String → Option PyVal) (t : String) :
    Option Stock :=
  match getNone td.close t with
  | .none => Option.none
  | .nan => Option.none
  | .num c =>
    if c = 0 then Option.none
    else
      let changePct : ℚ :=
        match getNone td.openPrice t with
        | .num o => if 0 < o then (c - o) / o * 100 else 0
        | _ => 0
      let avgVol := getZero volData t
      let volume := getNone td.volume t
      (volRatioOf volume avgVol).map fun vr =>
        { ticker := t, close := c, changePct := changePct,
          volume := volume, avgVolume := avgVol, volRatio := vr }

/-- Lines 177-207: the `stocks` list, one validated snapshot per ticker. -/
def mkStocks (tickers : List String) (td : TodayData)
    (volData : String → Option PyVal) : List Stock :=
  tickers.filterMap (mkStock td volData)

/-- The durable high-water-mark mapping `stored_highs`. -/
abbrev Store := String → Option ℚ

/-- `stored_highs.get(ticker, 0)` (lines 243, 259). -/
def Store.getD (st : Store) (t : String) : ℚ := (st t).getD 0

/-- `stored_highs[ticker] = v` (lines 252, 268). -/
def Store.set (st : Store) (t : String) (v : ℚ) : Store :=
  fun u => if u = t then some v else st u

/-- One element of `new_highs` (lines 247-251 and 263-267): the spread
snapshot dict plus `prev_high` and `beat_pct`. -/
structure NewHighEvent where
  stock : Stock
  prevHigh : ℚ
  beatPct : ℚ
deriving DecidableEq

/-- `((close - yr_high) / yr_high * 100) if yr_high > 0 else 0`
(lines 250, 266). -/
def beatPctOf (c h : ℚ) : ℚ := if 0 < h then (c - h) / h * 100 else 0

/-- `next((s for s in stocks if s["ticker"] == ticker), None)`
(lines 245, 261). -/
def findStock (stocks : List Stock) (t : String) : Option Stock :=
  stocks.find? (fun s => s.ticker == t)

/-- The events the single-ticker branch (lines 238-252) appends for ticker
`t`, given `yrHigh = hist["High"].max()`: at most one.  The comparison
`close >= yr_high * 0.99` is false when `yr_high` is NaN. -/
def stepSingleEvs (stocks : List Stock) (closeCol : String → Option PyVal)
    (t : String) (yrHigh : PyVal) : List NewHighEvent :=
  match getZero closeCol t with
  | .num c =>
    if c ≠ 0 then
      match yrHigh with
      | .num h =>
        if h * (99 / 100) ≤ c then
          match findStock stocks t with
          | some s => [⟨s, h, beatPctOf c h⟩]
          | Option.none => []
        else []
      | _ => []
    else []
  | _ => []

/-- The single-ticker branch of one 52-week batch (lines 238-252).  Note the
store update at line 252 is guarded only by the validity of `close`; it
happens even when `yr_high` is NaN. -/
def stepSingle (stocks : List Stock) (closeCol : String → Option PyVal)
    (t : String) (yrHigh : PyVal) (acc : List NewHighEvent × Store) :
    List NewHighEvent × Store :=
  match getZero closeCol t with
  | .num c =>
    if c ≠ 0 then
      let prev := acc.2.getD t
      (acc.1 ++ stepSingleEvs stocks closeCol t yrHigh,
       acc.2.set t (max c prev))
    else acc
  | _ => acc

/-- The events one ticker of the multi-ticker branch (lines 255-267) appends:
at most one.  `yrHigh?` is `hist["High"][ticker].max()`; `Option.none`
models the KeyError/TypeError caught at line 269. -/
def stepMultiEvs (stocks : List Stock) (closeCol : String → Option PyVal)
    (yrHigh? : Option PyVal) (t : String) : List NewHighEvent :=
  match yrHigh? with
  | Option.none => []
  | some yh =>
    match getZero closeCol t, yh with
    | .num c, .num h =>
      if c ≠ 0 then
        if h * (99 / 100) ≤ c then
          match findStock stocks t with
          | some s => [⟨s, h, beatPctOf c h⟩]
          | Option.none => []
        else []
      else []
    | _, _ => []

/-- One ticker of the multi-ticker branch (lines 255-268).  Here—unlike the
single-ticker branch—the update at line 268 is inside
`if close and not pd.isna(close) and not pd.isna(yr_high)`. -/
def stepMulti (stocks : List Stock) (closeCol : String → Option PyVal)
    (yrHigh? : Option PyVal) (t : String) (acc : List NewHighEvent × Store) :
    List NewHighEvent × Store :=
  match yrHigh? with
  | Option.none => acc
  | some yh =>
    match getZero closeCol t, yh with
    | .num c, .num h =>
      if c ≠ 0 then
        let prev := acc.2.getD t
        (acc.1 ++ stepMultiEvs stocks closeCol (some (.num h)) t,
         acc.2.set t (max c prev))
      else acc
    | _, _ => acc

/-- The outcome of `yf.download(batch, period="1y")` for one batch of the
52-week loop (lines 235-237): `failed` covers both an exception (caught at
line 271) and a frame that is empty or lacks a `High` column; `ok` offers
the overall `High` max (used when the batch has exactly one ticker, where it
is a number or NaN, never `None`) and the per-ticker column max. -/
inductive HistResult where
  | failed
  | ok (highAll : PyVal) (highOf : String → Option PyVal)

/-- One batch of the 52-week loop (lines 233-273): branch on the batch
length as the script does. -/
def evalBatch (stocks : List Stock) (closeCol : String → Option PyVal)
    (batch : List String) (hr : HistResult)
    (acc : List NewHighEvent × Store) : List NewHighEvent × Store :=
  match hr with
  | .failed => acc
  | .ok highAll highOf =>
    match batch with
    | [t] => stepSingle stocks closeCol t highAll acc
    | _ => batch.foldl (fun a t => stepMulti stocks closeCol (highOf t) t a) acc

/-- Fuel-driven chunking worker; with `fuel ≥ l.length` it splits `l` into
consecutive chunks of `n + 1` elements. -/
def chunksGo (n : Nat) : Nat → List α → List (List α)
  | _, [] => []
  | 0, x :: xs => [x :: xs]
  | fuel + 1, x :: xs => (x :: xs.take n) :: chunksGo n fuel (xs.drop n)

/-- `l[i:i+(n+1)]` chunking, as in `range(0, len(check_tickers), 50)` with
`n + 1 = 50` (line 233). -/
def chunksPos (n : Nat) (l : List α) : List (List α) := chunksGo n l.length l

/-- The descending-by-`change_pct` order used by
`sorted(stocks, key=lambda x: x["change_pct"], reverse=True)` (line 230).
Python's sort is stable, as is `List.insertionSort` with this relation. -/
def stockGe (a b : Stock) : Prop := b.changePct ≤ a.changePct

instance : DecidableRel stockGe :=
  fun a b => inferInstanceAs (Decidable (b.changePct ≤ a.changePct))

instance : IsTotal Stock stockGe := ⟨fun a b => le_total b.changePct a.changePct⟩

instance : IsTrans Stock stockGe := ⟨fun _ _ _ h1 h2 => le_trans h2 h1⟩

/-- Line 230: `candidates = sorted(stocks, key=..., reverse=True)[:200]`. -/
def candidates52 (stocks : List Stock) : List Stock :=
  (List.insertionSort stockGe stocks).take 200

/-- The whole 52-week evaluation loop (lines 228-273): take the 200 best
candidates by daily gain, chunk their tickers by 50, and fold the per-batch
evaluation, threading `new_highs` and the in-place-mutated `stored_highs`.
`hists i` is the fetch outcome of the `i`-th batch. -/
def run52w (stocks : List Stock) (closeCol : String → Option PyVal)
    (hists : Nat → HistResult) (st : Store) : List NewHighEvent × Store :=
  let checkTickers := (candidates52 stocks).map Stock.ticker
  let batches := chunksPos 49 checkTickers
  batches.enum.foldl
    (fun acc ib => evalBatch stocks closeCol ib.2 (hists ib.1) acc) ([], st)

/-- The descending-by-`beat_pct` order used at line 276. -/
def evGe (a b : NewHighEvent) : Prop := b.beatPct ≤ a.beatPct

instance : DecidableRel evGe :=
  fun a b => inferInstanceAs (Decidable (b.beatPct ≤ a.beatPct))

instance : IsTotal NewHighEvent evGe := ⟨fun a b => le_total b.beatPct a.beatPct⟩

instance : IsTrans NewHighEvent evGe := ⟨fun _ _ _ h1 h2 => le_trans h2 h1⟩

/-- Line 276: `sorted(new_highs, key=..., reverse=True)[:10]`. -/
def newHighsTop10 (evs : List NewHighEvent) : List NewHighEvent :=
  (List.insertionSort evGe evs).take 10

/-- What the attempt to open and JSON-decode `52week_highs.json` at lines
222-226 can come to: `absent` makes `open` raise FileNotFoundError, `badJson`
makes `json.load` raise `json.JSONDecodeError`, `ioError` stands for any
other exception the open/read can raise (e.g. PermissionError on an
unreadable file), and `decoded m` is a successful decode of mapping `m`. -/
inductive ReadResult where
  | absent
  | badJson
  | ioError
  | decoded (m : Store)

/-- An exception escaping the tracker (none of the handled ones). -/
inductive PyErr where
  | ioError
deriving DecidableEq

/-- Lines 222-226: `try: ... json.load(f)` with
`except (FileNotFoundError, json.JSONDecodeError): stored_highs = {}`.
Only those two exceptions are handled; anything else propagates. -/
def loadStoredHighs : ReadResult → Except PyErr Store
  | .absent => .ok (fun _ => Option.none)
  | .badJson => .ok (fun _ => Option.none)
  | .ioError => .error .ioError
  | .decoded m => .ok m

/-- A file system: path ↦ current text content. -/
abbrev Fs := String → Option String

/-- Primitive file operations.  `truncate p` is the effect of opening `p`
with mode `"w"`; `writeStr p s` appends the text `json.dump` emits;
`rename src dst` is an atomic `os.replace`, which `save_json` never uses. -/
inductive FsOp where
  | truncate (p : String)
  | writeStr (p : String) (s : String)
  | rename (src dst : String)

/-- Effect of one primitive operation on the file system. -/
def applyOp (fs : Fs) : FsOp → Fs
  | .truncate p => fun q => if q = p then some "" else fs q
  | .writeStr p s => fun q => if q = p then some ((fs p).getD "" ++ s) else fs q
  | .rename src dst =>
      fun q => if q = dst then fs src else if q = src then Option.none else fs q

/-- Effect of a sequence of primitive operations. -/
def applyOps (ops : List FsOp) (fs : Fs) : Fs := ops.foldl applyOp fs

/-- `save_json` (lines 36-38): `open(path, "w")` truncates the target file in
place, then `json.dump` writes the serialized text `content`.  There is no
temporary file and no atomic replace. -/
def save_json (path content : String) : List FsOp :=
  [.truncate path, .writeStr path content]

/-- The state of the file system if the process crashes after the first `k`
primitive operations of `ops` have reached the disk. -/
def crashAfter (k : Nat) (ops : List FsOp) (fs : Fs) : Fs :=
  applyOps (ops.take k) fs

/-- Externally visible effects of one tracker run, in order. -/
inductive Eff where
  | fetchBatch (i : Nat)
  | saveStore (st : Store)

/-- Whether an effect is the persistence of the store. -/
def Eff.isSave : Eff → Bool
  | .saveStore _ => true
  | _ => false

/-- Lines 228-275 at the effect level: the batch loop emits one fetch effect
per batch and the single `save_json` of line 275 follows the loop. -/
def run52wTraced (stocks : List Stock) (closeCol : String → Option PyVal)
    (hists : Nat → HistResult) (st : Store) :
    List Eff × List NewHighEvent × Store :=
  let checkTickers := (candidates52 stocks).map Stock.ticker
  let batches := chunksPos 49 checkTickers
  let out := batches.enum.foldl
    (fun acc ib =>
      (acc.1 ++ [Eff.fetchBatch ib.1],
       evalBatch stocks closeCol ib.2 (hists ib.1) acc.2))
    ([], ([], st))
  (out.1 ++ [Eff.saveStore out.2.2], out.2)

/-- One full tracker run (lines 221-276): load the durable mapping, evaluate
all batches, persist once, and sort/truncate the events for rendering. -/
def trackerRun (rd : ReadResult) (stocks : List Stock)
    (closeCol : String → Option PyVal) (hists : Nat → HistResult) :
    Except PyErr (List NewHighEvent × Store × List Eff) :=
  match loadStoredHighs rd with
  | .error e => .error e
  | .ok st0 =>
    let out := run52wTraced stocks closeCol hists st0
    .ok (newHighsTop10 out.2.1, out.2.2, out.1)

/-- The close value, if any, with which the 52-week loop would update the
store entry of ticker `u`: the re-looked-up `today_close` (lines 241, 257),
provided it is a truthy non-NaN number. -/
def closeTouch (closeCol : String → Option PyVal) (u : String) : Option ℚ :=
  match getZero closeCol u with
  | .num c => if c ≠ 0 then some c else Option.none
  | _ => Option.none

/-- Whether a multi-ticker lookup of the `High` column yielded a genuine
number for the ticker (the branch guard `not pd.isna(yr_high)` plus the
KeyError path). -/
def multiGate : Option PyVal → Bool
  | some (.num _) => true
  | _ => false

/-- Whether one batch of the 52-week loop updates the store entry of `u`. -/
def batchTouched (closeCol : String → Option PyVal) (batch : List String)
    (hr : HistResult) (u : String) : Bool :=
  match hr with
  | .failed => false
  | .ok _ highOf =>
    match batch with
    | [t] => t == u && (closeTouch closeCol u).isSome
    | _ =>
      batch.contains u && multiGate (highOf u) && (closeTouch closeCol u).isSome

/-- Whether some batch of the whole run updates the store entry of `u`. -/
def runTouched (stocks : List Stock) (closeCol : String → Option PyVal)
    (hists : Nat → HistResult) (u : String) : Bool :=
  ((chunksPos 49 ((candidates52 stocks).map Stock.ticker)).enum).any
    (fun ib => batchTouched closeCol ib.2 (hists ib.1) u)

/-- The inputs of one whole run, for chaining runs. -/
structure RunInput where
  stocks : List Stock
  closeCol : String → Option PyVal
  hists : Nat → HistResult

/-- The durable store threaded through a sequence of runs. -/
def runsFold (L : List RunInput) (st : Store) : Store :=
  L.foldl (fun s I => (run52w I.stocks I.closeCol I.hists s).2) st

/-- Events the multi-ticker branch of a batch appends, in ticker order. -/
def foldMultiEvs (stocks : List Stock) (closeCol : String → Option PyVal)
    (highOf : String → Option PyVal) (batch : List String) :
    List NewHighEvent :=
  (batch.map (fun t => stepMultiEvs stocks closeCol (highOf t) t)).flatten

/-- Events one batch of the 52-week loop appends. -/
def evalBatchEvs (stocks : List Stock) (closeCol : String → Option PyVal)
    (batch : List String) (hr : HistResult) : List NewHighEvent :=
  match hr with
  | .failed => []
  | .ok highAll highOf =>
    match batch with
    | [t] => stepSingleEvs stocks closeCol t highAll
    | _ => foldMultiEvs stocks closeCol highOf batch

/-- All events of one run, in emission order; they do not depend on the
stored mapping. -/
def run52wEvs (stocks : List Stock) (closeCol : String → Option PyVal)
    (hists : Nat → HistResult) : List NewHighEvent :=
  (((chunksPos 49 ((candidates52 stocks).map Stock.ticker)).enum).map
    (fun ib => evalBatchEvs stocks closeCol ib.2 (hists ib.1))).flatten

/-- Concrete snapshot fixture: a gainer that closed within 1% of its yearly
high. -/
def appleStock : Stock :=
  { ticker := "AAPL", close := 160, changePct := 5,
    volume := PyVal.num 1, avgVolume := PyVal.num 1, volRatio := PyVal.num 1 }

/-- Close column holding only AAPL at 160. -/
def appleCloseCol : String → Option PyVal :=
  fun u => if u = "AAPL" then some (PyVal.num 160) else Option.none

/-- Yearly-high fetches all answering 161. -/
def appleHists : Nat → HistResult :=
  fun _ => HistResult.ok (PyVal.num 161) (fun _ => some (PyVal.num 161))

/-- Concrete snapshot fixture whose trailing yearly high will be missing. -/
def msftStock : Stock :=
  { ticker := "MSFT", close := 300, changePct := 0,
    volume := PyVal.num 1, avgVolume := PyVal.num 1, volRatio := PyVal.num 0 }

/-- Close column holding only MSFT at 300. -/
def msftCloseCol : String → Option PyVal :=
  fun u => if u = "MSFT" then some (PyVal.num 300) else Option.none

/-- Yearly-high fetches whose `High` data is NaN (no usable rows). -/
def nanHists : Nat → HistResult :=
  fun _ => HistResult.ok PyVal.nan (fun _ => some PyVal.nan)

/-- The empty durable mapping. -/
def emptyStore : Store := fun _ => Option.none

/-- Fixture: one day's fetched columns for a single ticker. -/
def sampleTd : TodayData :=
  ⟨fun u => if u = "AAPL" then some (PyVal.num 160) else Option.none,
   fun u => if u = "AAPL" then some (PyVal.num 1) else Option.none,
   fun u => if u = "AAPL" then some (PyVal.num 20) else Option.none⟩

/-- Fixture: trailing-month volume averages for the same ticker. -/
def sampleVd : String → Option PyVal :=
  fun u => if u = "AAPL" then some (PyVal.num 1) else Option.none

/-- The snapshot `mkStock` builds from the fixtures, with its derived fields
written as the very expressions the builder computes. -/
def sampleSnap : Stock :=
  { ticker := "AAPL", close := 160, changePct := (160 - 1) / 1 * 100,
    volume := PyVal.num 20, avgVolume := PyVal.num 1,
    volRatio := PyVal.num (20 / 1) }

-- sanity checks (concrete evaluation of the embedding)
example :
    (run52w [⟨"AAPL", 160, 5, .num 1, .num 1, .num 1⟩]
      (fun t => if t = "AAPL" then some (.num 160) else Option.none)
      (fun _ => .ok (.num 161) (fun _ => some (.num 161)))
      (fun _ => Option.none)).1
    = [⟨⟨"AAPL", 160, 5, .num 1, .num 1, .num 1⟩, 161, (160 - 161) / 161 * 100⟩] := by
  norm_num [run52w, candidates52, chunksPos, chunksGo, evalBatch, stepSingle,
    stepSingleEvs, getZero, findStock, beatPctOf, List.enum, List.enumFrom]

example :
    (run52w [⟨"AAPL", 160, 5, .num 1, .num 1, .num 1⟩]
      (fun t => if t = "AAPL" then some (.num 160) else Option.none)
      (fun _ => .ok (.num 161) (fun _ => some (.num 161)))
      (fun t => if t = "AAPL" then some (150 : ℚ) else Option.none)).2 "AAPL"
    = some 160 := by
  norm_num [run52w, candidates52, chunksPos, chunksGo, evalBatch, stepSingle,
    stepSingleEvs, getZero, findStock, beatPctOf, List.enum, List.enumFrom,
    Store.set, Store.getD]

-- ── Helper lemmas ─────────────────────────────────────────────────────

theorem max_absorb (a b : ℚ) : max a (max a b) = max a b := by
  rw [← max_assoc, max_self]

theorem Store.set_self (st : Store) (t : String) (v : ℚ) :
    Store.set st t v t = some v := by
  simp [Store.set]

theorem Store.set_other (st : Store) {t u : String} (v : ℚ) (h : u ≠ t) :
    Store.set st t v u = st u := by
  simp [Store.set, h]

theorem Store.getD_set_self (st : Store) (t : String) (v : ℚ) :
    Store.getD (Store.set st t v) t = v := by
  simp [Store.getD, Store.set]

-- ── Store characterization of one step ────────────────────────────────

theorem stepSingle_snd (S : List Stock) (cc : String → Option PyVal)
    (t : String) (yh : PyVal) (acc : List NewHighEvent × Store) :
    (stepSingle S cc t yh acc).2 =
      if (closeTouch cc t).isSome then
        Store.set acc.2 t (max ((closeTouch cc t).getD 0) (Store.getD acc.2 t))
      else acc.2 := by
  unfold stepSingle closeTouch
  cases h : getZero cc t with
  | none => simp
  | nan => simp
  | num c => by_cases hc : c = 0 <;> simp [hc]

theorem stepMulti_snd (S : List Stock) (cc : String → Option PyVal)
    (y? : Option PyVal) (t : String) (acc : List NewHighEvent × Store) :
    (stepMulti S cc y? t acc).2 =
      if multiGate y? && (closeTouch cc t).isSome then
        Store.set acc.2 t (max ((closeTouch cc t).getD 0) (Store.getD acc.2 t))
      else acc.2 := by
  unfold stepMulti multiGate closeTouch
  cases y? with
  | none => simp
  | some yh =>
    cases yh with
    | none => cases h : getZero cc t <;> simp
    | nan => cases h : getZero cc t <;> simp
    | num hq =>
      cases h : getZero cc t with
      | none => simp
      | nan => simp
      | num c => by_cases hc : c = 0 <;> simp [hc]

-- ── Store characterization of a batch and of the run ──────────────────

theorem stepMulti_apply_self (S : List Stock) (cc : String → Option PyVal)
    (y? : Option PyVal) (u : String) (acc : List NewHighEvent × Store) :
    (stepMulti S cc y? u acc).2 u =
      if multiGate y? && (closeTouch cc u).isSome
      then some (max ((closeTouch cc u).getD 0) (Store.getD acc.2 u))
      else acc.2 u := by
  rw [stepMulti_snd]
  by_cases h : (multiGate y? && (closeTouch cc u).isSome) = true
  · rw [if_pos h, if_pos h, Store.set_self]
  · rw [if_neg h, if_neg h]

theorem stepMulti_apply_other (S : List Stock) (cc : String → Option PyVal)
    (y? : Option PyVal) {t u : String} (acc : List NewHighEvent × Store)
    (hut : u ≠ t) :
    (stepMulti S cc y? t acc).2 u = acc.2 u := by
  rw [stepMulti_snd]
  by_cases h : (multiGate y? && (closeTouch cc t).isSome) = true
  · rw [if_pos h, Store.set_other _ _ hut]
  · rw [if_neg h]

theorem foldMulti_snd (S : List Stock) (cc highOf : String → Option PyVal)
    (batch : List String) (acc : List NewHighEvent × Store) (u : String) :
    (batch.foldl (fun a t => stepMulti S cc (highOf t) t a) acc).2 u =
      if batch.contains u && multiGate (highOf u) && (closeTouch cc u).isSome
      then some (max ((closeTouch cc u).getD 0) (Store.getD acc.2 u))
      else acc.2 u := by
  induction batch generalizing acc with
  | nil => simp
  | cons t ts ih =>
    simp only [List.foldl_cons]
    rw [ih]
    by_cases hut : u = t
    · subst hut
      by_cases hAB : (multiGate (highOf u) && (closeTouch cc u).isSome) = true
      · have hσ : (stepMulti S cc (highOf u) u acc).2 u =
            some (max ((closeTouch cc u).getD 0) (Store.getD acc.2 u)) := by
          rw [stepMulti_apply_self, if_pos hAB]
        have hγ : Store.getD (stepMulti S cc (highOf u) u acc).2 u =
            max ((closeTouch cc u).getD 0) (Store.getD acc.2 u) := by
          unfold Store.getD
          rw [hσ]
          rfl
        have hcons :
            ((u :: ts).contains u && multiGate (highOf u) &&
              (closeTouch cc u).isSome) = true := by
          simp only [List.contains_cons, beq_self_eq_true, Bool.true_or,
            Bool.true_and]
          exact hAB
        rw [if_pos hcons]
        by_cases hts : ts.contains u = true
        · have hc2 : (ts.contains u && multiGate (highOf u) &&
              (closeTouch cc u).isSome) = true := by
            rw [Bool.and_assoc, hts, Bool.true_and]
            exact hAB
          rw [if_pos hc2, hγ, max_absorb]
        · have hc2 : ¬((ts.contains u && multiGate (highOf u) &&
              (closeTouch cc u).isSome) = true) := by
            rw [Bool.and_assoc]
            simp only [Bool.and_eq_true, not_and]
            intro h
            exact absurd h hts
          rw [if_neg hc2, hσ]
      · have hσ : (stepMulti S cc (highOf u) u acc).2 u = acc.2 u := by
          rw [stepMulti_apply_self, if_neg hAB]
        have hγ : Store.getD (stepMulti S cc (highOf u) u acc).2 u =
            Store.getD acc.2 u := by
          unfold Store.getD
          rw [hσ]
        have hfalse : ∀ X : Bool,
            (X && multiGate (highOf u) && (closeTouch cc u).isSome) = false := by
          intro X
          rw [Bool.and_assoc]
          rcases Bool.and_eq_false_iff.mp (Bool.eq_false_iff.mpr hAB) with h | h <;>
            simp [h]
        have hc1 : ¬((ts.contains u && multiGate (highOf u) &&
            (closeTouch cc u).isSome) = true) := by
          rw [hfalse (ts.contains u)]
          exact Bool.false_ne_true
        have hc2 : ¬(((u :: ts).contains u && multiGate (highOf u) &&
            (closeTouch cc u).isSome) = true) := by
          rw [hfalse ((u :: ts).contains u)]
          exact Bool.false_ne_true
        rw [if_neg hc1, if_neg hc2, hσ]
    · have hσ : (stepMulti S cc (highOf t) t acc).2 u = acc.2 u :=
        stepMulti_apply_other S cc (highOf t) acc hut
      have hγ : Store.getD (stepMulti S cc (highOf t) t acc).2 u =
          Store.getD acc.2 u := by
        unfold Store.getD
        rw [hσ]
      have hcons : (t :: ts).contains u = ts.contains u := by
        simp only [List.contains_cons]
        rw [beq_eq_false_iff_ne.mpr hut, Bool.false_or]
      rw [hσ, hγ, hcons]

theorem evalBatch_snd (S : List Stock) (cc : String → Option PyVal)
    (batch : List String) (hr : HistResult)
    (acc : List NewHighEvent × Store) (u : String) :
    (evalBatch S cc batch hr acc).2 u =
      if batchTouched cc batch hr u
      then some (max ((closeTouch cc u).getD 0) (Store.getD acc.2 u))
      else acc.2 u := by
  cases hr with
  | failed => simp [evalBatch, batchTouched]
  | ok hAll hOf =>
    cases batch with
    | nil => simp [evalBatch, batchTouched]
    | cons t rest =>
      cases rest with
      | nil =>
        show (stepSingle S cc t hAll acc).2 u = _
        rw [stepSingle_snd]
        have hbt : batchTouched cc [t] (HistResult.ok hAll hOf) u =
            ((t == u) && (closeTouch cc u).isSome) := rfl
        by_cases hut : u = t
        · subst hut
          rw [hbt, beq_self_eq_true, Bool.true_and]
          by_cases hB : (closeTouch cc u).isSome = true
          · rw [if_pos hB, if_pos hB, Store.set_self]
          · rw [if_neg hB, if_neg hB]
        · have ht : (t == u) = false :=
            beq_eq_false_iff_ne.mpr (fun h => hut h.symm)
          rw [hbt, ht, Bool.false_and, if_neg Bool.false_ne_true]
          by_cases hB : (closeTouch cc t).isSome = true
          · rw [if_pos hB, Store.set_other _ _ hut]
          · rw [if_neg hB]
      | cons t2 ts =>
        show ((t :: t2 :: ts).foldl
            (fun a x => stepMulti S cc (hOf x) x a) acc).2 u = _
        rw [foldMulti_snd]
        rfl

theorem foldBatches_snd (S : List Stock) (cc : String → Option PyVal)
    (hists : Nat → HistResult) (l : List (Nat × List String))
    (acc : List NewHighEvent × Store) (u : String) :
    (l.foldl (fun a ib => evalBatch S cc ib.2 (hists ib.1) a) acc).2 u =
      if l.any (fun ib => batchTouched cc ib.2 (hists ib.1) u)
      then some (max ((closeTouch cc u).getD 0) (Store.getD acc.2 u))
      else acc.2 u := by
  induction l generalizing acc with
  | nil => simp
  | cons ib l ih =>
    simp only [List.foldl_cons, List.any_cons]
    rw [ih]
    by_cases hb : batchTouched cc ib.2 (hists ib.1) u = true
    · have hσ : (evalBatch S cc ib.2 (hists ib.1) acc).2 u =
          some (max ((closeTouch cc u).getD 0) (Store.getD acc.2 u)) := by
        rw [evalBatch_snd, if_pos hb]
      have hγ : Store.getD (evalBatch S cc ib.2 (hists ib.1) acc).2 u =
          max ((closeTouch cc u).getD 0) (Store.getD acc.2 u) := by
        unfold Store.getD
        rw [hσ]
        rfl
      by_cases hl : (l.any fun x => batchTouched cc x.2 (hists x.1) u) = true
      · simp [hb, hl, hγ, max_absorb]
      · simp [hb, Bool.eq_false_iff.mpr hl, hσ]
    · have hσ : (evalBatch S cc ib.2 (hists ib.1) acc).2 u = acc.2 u := by
        rw [evalBatch_snd, if_neg hb]
      have hγ : Store.getD (evalBatch S cc ib.2 (hists ib.1) acc).2 u =
          Store.getD acc.2 u := by
        unfold Store.getD
        rw [hσ]
      by_cases hl : (l.any fun x => batchTouched cc x.2 (hists x.1) u) = true
      · simp [Bool.eq_false_iff.mpr hb, hl, hγ]
      · simp [Bool.eq_false_iff.mpr hb, Bool.eq_false_iff.mpr hl, hσ]

/-- Pointwise characterization of the store a run leaves behind: an entry is
re-set to the max of its old value (default 0) and today's close exactly when
some batch touches it, and left alone otherwise. -/
theorem run52w_snd (S : List Stock) (cc : String → Option PyVal)
    (hists : Nat → HistResult) (st : Store) (u : String) :
    (run52w S cc hists st).2 u =
      if runTouched S cc hists u
      then some (max ((closeTouch cc u).getD 0) (Store.getD st u))
      else st u := by
  unfold run52w runTouched
  exact foldBatches_snd S cc hists _ ([], st) u

-- ── Events characterization: emitted events do not read the store ─────

theorem stepSingle_fst (S : List Stock) (cc : String → Option PyVal)
    (t : String) (yh : PyVal) (acc : List NewHighEvent × Store) :
    (stepSingle S cc t yh acc).1 = acc.1 ++ stepSingleEvs S cc t yh := by
  unfold stepSingle stepSingleEvs
  cases h : getZero cc t with
  | none => simp
  | nan => simp
  | num c => by_cases hc : c = 0 <;> simp [hc]

theorem stepMulti_fst (S : List Stock) (cc : String → Option PyVal)
    (y? : Option PyVal) (t : String) (acc : List NewHighEvent × Store) :
    (stepMulti S cc y? t acc).1 = acc.1 ++ stepMultiEvs S cc y? t := by
  unfold stepMulti
  cases y? with
  | none => simp [stepMultiEvs]
  | some yh =>
    cases yh with
    | none => cases h : getZero cc t <;> simp [stepMultiEvs, h]
    | nan => cases h : getZero cc t <;> simp [stepMultiEvs, h]
    | num hq =>
      cases h : getZero cc t with
      | none => simp [stepMultiEvs, h]
      | nan => simp [stepMultiEvs, h]
      | num c => by_cases hc : c = 0 <;> simp [hc, stepMultiEvs, h]

theorem foldMulti_fst (S : List Stock) (cc highOf : String → Option PyVal)
    (batch : List String) (acc : List NewHighEvent × Store) :
    (batch.foldl (fun a t => stepMulti S cc (highOf t) t a) acc).1 =
      acc.1 ++ foldMultiEvs S cc highOf batch := by
  induction batch generalizing acc with
  | nil => simp [foldMultiEvs]
  | cons t ts ih =>
    simp only [List.foldl_cons]
    rw [ih]
    simp [foldMultiEvs, stepMulti_fst]

theorem evalBatch_fst (S : List Stock) (cc : String → Option PyVal)
    (batch : List String) (hr : HistResult)
    (acc : List NewHighEvent × Store) :
    (evalBatch S cc batch hr acc).1 = acc.1 ++ evalBatchEvs S cc batch hr := by
  cases hr with
  | failed => simp [evalBatch, evalBatchEvs]
  | ok hAll hOf =>
    cases batch with
    | nil => simp [evalBatch, evalBatchEvs, foldMultiEvs]
    | cons t rest =>
      cases rest with
      | nil =>
        show (stepSingle S cc t hAll acc).1 = _
        rw [stepSingle_fst]
        rfl
      | cons t2 ts =>
        show ((t :: t2 :: ts).foldl
            (fun a x => stepMulti S cc (hOf x) x a) acc).1 = _
        rw [foldMulti_fst]
        rfl

theorem foldBatches_fst (S : List Stock) (cc : String → Option PyVal)
    (hists : Nat → HistResult) (l : List (Nat × List String))
    (acc : List NewHighEvent × Store) :
    (l.foldl (fun a ib => evalBatch S cc ib.2 (hists ib.1) a) acc).1 =
      acc.1 ++ (l.map (fun ib => evalBatchEvs S cc ib.2 (hists ib.1))).flatten := by
  induction l generalizing acc with
  | nil => simp
  | cons ib l ih =>
    simp only [List.foldl_cons, List.map_cons, List.flatten_cons]
    rw [ih, evalBatch_fst, List.append_assoc]

/-- The events of a run are a function of the day's inputs alone: the stored
mapping influences none of them. -/
theorem run52w_fst (S : List Stock) (cc : String → Option PyVal)
    (hists : Nat → HistResult) (st : Store) :
    (run52w S cc hists st).1 = run52wEvs S cc hists := by
  unfold run52w run52wEvs
  rw [foldBatches_fst]
  rfl

-- ── Shape of emitted events ───────────────────────────────────────────

theorem stepSingleEvs_shape (S : List Stock) (cc : String → Option PyVal)
    (t : String) (yh : PyVal) (e : NewHighEvent)
    (he : e ∈ stepSingleEvs S cc t yh) :
    ∃ s c h, findStock S t = some s ∧ getZero cc t = PyVal.num c ∧ c ≠ 0 ∧
      yh = PyVal.num h ∧ h * (99 / 100) ≤ c ∧
      e = ⟨s, h, beatPctOf c h⟩ := by
  unfold stepSingleEvs at he
  cases hz : getZero cc t with
  | none => rw [hz] at he; simp at he
  | nan => rw [hz] at he; simp at he
  | num c =>
    rw [hz] at he
    simp only [] at he
    by_cases hc : c = 0
    · simp [hc] at he
    · rw [if_pos hc] at he
      cases yh with
      | none => simp at he
      | nan => simp at he
      | num h =>
        simp only [] at he
        by_cases hth : h * (99 / 100) ≤ c
        · rw [if_pos hth] at he
          cases hf : findStock S t with
          | none => rw [hf] at he; simp at he
          | some s =>
            rw [hf] at he
            simp only [List.mem_singleton] at he
            exact ⟨s, c, h, rfl, rfl, hc, rfl, hth, he⟩
        · rw [if_neg hth] at he
          simp at he

theorem stepMultiEvs_shape (S : List Stock) (cc : String → Option PyVal)
    (y? : Option PyVal) (t : String) (e : NewHighEvent)
    (he : e ∈ stepMultiEvs S cc y? t) :
    ∃ s c h, findStock S t = some s ∧ getZero cc t = PyVal.num c ∧ c ≠ 0 ∧
      y? = some (PyVal.num h) ∧ h * (99 / 100) ≤ c ∧
      e = ⟨s, h, beatPctOf c h⟩ := by
  unfold stepMultiEvs at he
  cases y? with
  | none => simp at he
  | some yh =>
    simp only [] at he
    cases yh with
    | none => cases hz : getZero cc t <;> rw [hz] at he <;> simp at he
    | nan => cases hz : getZero cc t <;> rw [hz] at he <;> simp at he
    | num h =>
      cases hz : getZero cc t with
      | none => rw [hz] at he; simp at he
      | nan => rw [hz] at he; simp at he
      | num c =>
        rw [hz] at he
        simp only [] at he
        by_cases hc : c = 0
        · simp [hc] at he
        · rw [if_pos hc] at he
          by_cases hth : h * (99 / 100) ≤ c
          · rw [if_pos hth] at he
            cases hf : findStock S t with
            | none => rw [hf] at he; simp at he
            | some s =>
              rw [hf] at he
              simp only [List.mem_singleton] at he
              exact ⟨s, c, h, rfl, rfl, hc, rfl, hth, he⟩
          · rw [if_neg hth] at he
            simp at he

theorem evalBatchEvs_shape (S : List Stock) (cc : String → Option PyVal)
    (batch : List String) (hr : HistResult) (e : NewHighEvent)
    (he : e ∈ evalBatchEvs S cc batch hr) :
    ∃ t s c h, t ∈ batch ∧ findStock S t = some s ∧
      getZero cc t = PyVal.num c ∧ c ≠ 0 ∧ h * (99 / 100) ≤ c ∧
      e = ⟨s, h, beatPctOf c h⟩ := by
  cases hr with
  | failed => simp [evalBatchEvs] at he
  | ok hAll hOf =>
    cases batch with
    | nil => simp [evalBatchEvs, foldMultiEvs] at he
    | cons t rest =>
      cases rest with
      | nil =>
        have he' : e ∈ stepSingleEvs S cc t hAll := he
        obtain ⟨s, c, h, hf, hz, hc, _, hth, hsh⟩ :=
          stepSingleEvs_shape S cc t hAll e he'
        exact ⟨t, s, c, h, List.mem_singleton.mpr rfl, hf, hz, hc, hth, hsh⟩
      | cons t2 ts =>
        have he' : e ∈ foldMultiEvs S cc hOf (t :: t2 :: ts) := he
        unfold foldMultiEvs at he'
        rw [List.mem_flatten] at he'
        obtain ⟨l, hl, hel⟩ := he'
        rw [List.mem_map] at hl
        obtain ⟨u, hu, rfl⟩ := hl
        obtain ⟨s, c, h, hf, hz, hc, _, hth, hsh⟩ :=
          stepMultiEvs_shape S cc (hOf u) u e hel
        exact ⟨u, s, c, h, hu, hf, hz, hc, hth, hsh⟩

/-- Every element of a chunk is an element of the chunked list. -/
theorem chunksGo_mem (n : Nat) (fuel : Nat) (l : List α) (b : List α)
    (hb : b ∈ chunksGo n fuel l) (t : α) (ht : t ∈ b) : t ∈ l := by
  induction fuel generalizing l with
  | zero =>
    cases l with
    | nil => simp [chunksGo] at hb
    | cons x xs =>
      simp only [chunksGo, List.mem_singleton] at hb
      subst hb
      exact ht
  | succ fuel ih =>
    cases l with
    | nil => simp [chunksGo] at hb
    | cons x xs =>
      simp only [chunksGo, List.mem_cons] at hb
      rcases hb with hb | hb
      · subst hb
        rcases List.mem_cons.mp ht with h | h
        · exact List.mem_cons.mpr (Or.inl h)
        · exact List.mem_cons.mpr (Or.inr ((List.take_sublist n xs).mem h))
      · exact List.mem_cons.mpr (Or.inr ((List.drop_sublist n xs).mem (ih _ hb)))

/-- Every event of a run concerns a candidate ticker, comes from a stock the
lookup found, and met the 99% threshold against a genuine yearly high. -/
theorem run52wEvs_shape (S : List Stock) (cc : String → Option PyVal)
    (hists : Nat → HistResult) (e : NewHighEvent)
    (he : e ∈ run52wEvs S cc hists) :
    ∃ t s c h, t ∈ (candidates52 S).map Stock.ticker ∧
      findStock S t = some s ∧ getZero cc t = PyVal.num c ∧ c ≠ 0 ∧
      h * (99 / 100) ≤ c ∧ e = ⟨s, h, beatPctOf c h⟩ := by
  unfold run52wEvs at he
  rw [List.mem_flatten] at he
  obtain ⟨l, hl, hel⟩ := he
  rw [List.mem_map] at hl
  obtain ⟨ib, hib, rfl⟩ := hl
  obtain ⟨t, s, c, h, htb, hf, hz, hc, hth, hsh⟩ :=
    evalBatchEvs_shape S cc ib.2 (hists ib.1) e hel
  have hbc : ib.2 ∈ chunksPos 49 ((candidates52 S).map Stock.ticker) :=
    List.snd_mem_of_mem_enum hib
  exact ⟨t, s, c, h, chunksGo_mem 49 _ _ ib.2 hbc t htb, hf, hz, hc, hth, hsh⟩

-- ── Trace of one run, and monotonicity helpers ────────────────────────

theorem foldTraced_eq (S : List Stock) (cc : String → Option PyVal)
    (hists : Nat → HistResult) (l : List (Nat × List String))
    (tr : List Eff) (acc : List NewHighEvent × Store) :
    l.foldl (fun a ib => (a.1 ++ [Eff.fetchBatch ib.1],
        evalBatch S cc ib.2 (hists ib.1) a.2)) (tr, acc) =
      (tr ++ l.map (fun ib => Eff.fetchBatch ib.1),
       l.foldl (fun a ib => evalBatch S cc ib.2 (hists ib.1) a) acc) := by
  induction l generalizing tr acc with
  | nil => simp
  | cons ib l ih =>
    simp only [List.foldl_cons, List.map_cons]
    rw [ih]
    simp

theorem run52wTraced_eq (S : List Stock) (cc : String → Option PyVal)
    (hists : Nat → HistResult) (st : Store) :
    run52wTraced S cc hists st =
      ((chunksPos 49 ((candidates52 S).map Stock.ticker)).enum.map
          (fun ib => Eff.fetchBatch ib.1) ++
        [Eff.saveStore (run52w S cc hists st).2],
       run52w S cc hists st) := by
  unfold run52wTraced run52w
  dsimp only
  rw [foldTraced_eq]
  simp

theorem run52w_store_mono (S : List Stock) (cc : String → Option PyVal)
    (hists : Nat → HistResult) (st : Store) (u : String) :
    Store.getD st u ≤ Store.getD (run52w S cc hists st).2 u := by
  have h := run52w_snd S cc hists st u
  unfold Store.getD
  rw [h]
  by_cases ht : runTouched S cc hists u = true
  · rw [if_pos ht]
    simp only [Option.getD_some]
    exact le_max_right _ _
  · rw [if_neg ht]

theorem run52w_store_presence (S : List Stock) (cc : String → Option PyVal)
    (hists : Nat → HistResult) (st : Store) (u : String)
    (h : (run52w S cc hists st).2 u = Option.none) : st u = Option.none := by
  rw [run52w_snd] at h
  by_cases ht : runTouched S cc hists u = true
  · rw [if_pos ht] at h
    exact absurd h (by simp)
  · rwa [if_neg ht] at h

-- ── Claim theorems ────────────────────────────────────────────────────

/-- C1: across any sequence of runs, the durable high-water-mark entry of a
symbol never decreases — each run rewrites it to
`max(previously stored, today's close)` and no run deletes an entry. -/
theorem c1_recordedHigh_monotone (L : List RunInput) (st : Store)
    (s : String) :
    Store.getD st s ≤ Store.getD (runsFold L st) s ∧
      (runsFold L st s = Option.none → st s = Option.none) := by
  induction L generalizing st with
  | nil => exact ⟨le_refl _, fun h => h⟩
  | cons I L ih =>
    have hstep : runsFold (I :: L) st =
        runsFold L ((run52w I.stocks I.closeCol I.hists st).2) := rfl
    rw [hstep]
    have hmono := run52w_store_mono I.stocks I.closeCol I.hists st s
    have h2 := ih ((run52w I.stocks I.closeCol I.hists st).2)
    refine ⟨le_trans hmono h2.1, fun h => ?_⟩
    exact run52w_store_presence I.stocks I.closeCol I.hists st s (h2.2 h)

/-- Witness for C1 at one concrete one-run input. -/
theorem c1_recordedHigh_monotone_witness :
    Store.getD emptyStore "AAPL" ≤
        Store.getD
          (runsFold [⟨[appleStock], appleCloseCol, appleHists⟩] emptyStore)
          "AAPL" ∧
      (runsFold [⟨[appleStock], appleCloseCol, appleHists⟩] emptyStore "AAPL" =
          Option.none →
        emptyStore "AAPL" = Option.none) :=
  c1_recordedHigh_monotone [⟨[appleStock], appleCloseCol, appleHists⟩]
    emptyStore "AAPL"

/-- C4: re-running the 52-week evaluation with identical inputs, starting
from the store the first run left behind, emits exactly the same events and
leaves the store unchanged. -/
theorem c4_evaluate_idempotent (S : List Stock) (cc : String → Option PyVal)
    (hists : Nat → HistResult) (st : Store) :
    (run52w S cc hists ((run52w S cc hists st).2)).1 =
        (run52w S cc hists st).1 ∧
      (run52w S cc hists ((run52w S cc hists st).2)).2 =
        (run52w S cc hists st).2 := by
  constructor
  · rw [run52w_fst, run52w_fst]
  · funext u
    rw [run52w_snd S cc hists ((run52w S cc hists st).2) u]
    by_cases ht : runTouched S cc hists u = true
    · rw [if_pos ht]
      have h1 : (run52w S cc hists st).2 u =
          some (max ((closeTouch cc u).getD 0) (Store.getD st u)) := by
        rw [run52w_snd, if_pos ht]
      have h2 : Store.getD (run52w S cc hists st).2 u =
          max ((closeTouch cc u).getD 0) (Store.getD st u) := by
        unfold Store.getD
        rw [h1]
        rfl
      rw [h2, max_absorb, h1]
    · rw [if_neg ht]

/-- C2: for a candidate ticker that has a snapshot, a NewHighEvent is
emitted — in either fetch branch — iff today's close and the trailing
one-year high are both genuine numbers (the close nonzero, per the snapshot
validity rule) and close ≥ 0.99 × high; never when either is absent/NaN. -/
theorem c2_event_iff (S : List Stock) (cc : String → Option PyVal)
    (t : String) (s : Stock) (hfind : findStock S t = some s) :
    (∀ yh : PyVal, stepSingleEvs S cc t yh ≠ [] ↔
        ∃ c h : ℚ, getZero cc t = PyVal.num c ∧ c ≠ 0 ∧ yh = PyVal.num h ∧
          h * (99 / 100) ≤ c) ∧
    (∀ y? : Option PyVal, stepMultiEvs S cc y? t ≠ [] ↔
        ∃ c h : ℚ, getZero cc t = PyVal.num c ∧ c ≠ 0 ∧
          y? = some (PyVal.num h) ∧ h * (99 / 100) ≤ c) := by
  constructor
  · intro yh
    constructor
    · intro hne
      obtain ⟨e, he⟩ := List.exists_mem_of_ne_nil _ hne
      obtain ⟨s', c, h, _, hz, hc, hyh, hth, _⟩ :=
        stepSingleEvs_shape S cc t yh e he
      exact ⟨c, h, hz, hc, hyh, hth⟩
    · rintro ⟨c, h, hz, hc, rfl, hth⟩
      unfold stepSingleEvs
      rw [hz]
      simp only []
      rw [if_pos hc, if_pos hth, hfind]
      simp
  · intro y?
    constructor
    · intro hne
      obtain ⟨e, he⟩ := List.exists_mem_of_ne_nil _ hne
      obtain ⟨s', c, h, _, hz, hc, hy, hth, _⟩ :=
        stepMultiEvs_shape S cc y? t e he
      exact ⟨c, h, hz, hc, hy, hth⟩
    · rintro ⟨c, h, hz, hc, rfl, hth⟩
      unfold stepMultiEvs
      simp only []
      rw [hz]
      simp only []
      rw [if_pos hc, if_pos hth, hfind]
      simp

/-- Witness for C2 at a concrete candidate. -/
theorem c2_event_iff_witness :
    findStock [appleStock] "AAPL" = some appleStock ∧
      ((∀ yh : PyVal, stepSingleEvs [appleStock] appleCloseCol "AAPL" yh ≠ [] ↔
          ∃ c h : ℚ, getZero appleCloseCol "AAPL" = PyVal.num c ∧ c ≠ 0 ∧
            yh = PyVal.num h ∧ h * (99 / 100) ≤ c) ∧
        (∀ y? : Option PyVal,
            stepMultiEvs [appleStock] appleCloseCol y? "AAPL" ≠ [] ↔
          ∃ c h : ℚ, getZero appleCloseCol "AAPL" = PyVal.num c ∧ c ≠ 0 ∧
            y? = some (PyVal.num h) ∧ h * (99 / 100) ≤ c)) :=
  ⟨rfl, c2_event_iff [appleStock] appleCloseCol "AAPL" appleStock rfl⟩

/-- If the re-looked-up close is usable, it is a nonzero genuine number. -/
theorem closeTouch_some (cc : String → Option PyVal) (t : String) (c : ℚ)
    (h : closeTouch cc t = some c) : getZero cc t = PyVal.num c ∧ c ≠ 0 := by
  unfold closeTouch at h
  cases hz : getZero cc t with
  | none => rw [hz] at h; simp at h
  | nan => rw [hz] at h; simp at h
  | num c' =>
    rw [hz] at h
    simp only [] at h
    by_cases hc : c' = 0
    · rw [if_neg (by simp [hc])] at h
      exact absurd h (by simp)
    · rw [if_pos hc] at h
      have hcc : c' = c := by injection h
      subst hcc
      exact ⟨rfl, hc⟩

/-- C3 counterexample: candidate MSFT has a valid close of 300 and a NaN
trailing one-year high; fetched in a single-ticker batch, the run emits no
event but still rewrites the stored entry from absent to 300 — the store
does not stay unchanged for MSFT. -/
theorem c3_skip_counterexample :
    (run52w [msftStock] msftCloseCol nanHists emptyStore).1 = [] ∧
      (run52w [msftStock] msftCloseCol nanHists emptyStore).2 "MSFT" =
        some 300 ∧
      emptyStore "MSFT" ≠ some (300 : ℚ) := by
  refine ⟨?_, ?_, by simp [emptyStore]⟩
  · norm_num [run52w, candidates52, chunksPos, chunksGo, evalBatch, stepSingle,
      stepSingleEvs, getZero, msftCloseCol, msftStock, nanHists, emptyStore,
      List.enum, List.enumFrom]
  · norm_num [run52w, candidates52, chunksPos, chunksGo, evalBatch, stepSingle,
      stepSingleEvs, getZero, findStock, msftCloseCol, msftStock, emptyStore,
      nanHists, List.enum, List.enumFrom, Store.set, Store.getD]

/-- C3 amended: if today's close is missing/NaN/zero, neither branch emits an
event or updates the store; if the trailing high is missing/NaN, no event is
emitted and the multi-ticker branch performs no state update — but the
single-ticker branch still rewrites the entry to max(close, stored). -/
theorem c3_skip_frame_amended (S : List Stock) (cc : String → Option PyVal)
    (t : String) (acc : List NewHighEvent × Store) :
    (closeTouch cc t = Option.none →
      (∀ yh, stepSingle S cc t yh acc = acc) ∧
        (∀ y?, stepMulti S cc y? t acc = acc)) ∧
    (∀ y?, multiGate y? = false → stepMulti S cc y? t acc = acc) ∧
    (∀ c : ℚ, closeTouch cc t = some c →
      (stepSingle S cc t PyVal.nan acc).1 = acc.1 ∧
        (stepSingle S cc t PyVal.nan acc).2 t =
          some (max c (Store.getD acc.2 t))) := by
  refine ⟨fun hnone => ⟨fun yh => ?_, fun y? => ?_⟩, fun y? hg => ?_,
    fun c hct => ?_⟩
  · unfold stepSingle
    cases hz : getZero cc t with
    | none => rfl
    | nan => rfl
    | num c =>
      unfold closeTouch at hnone
      rw [hz] at hnone
      simp only [] at hnone
      by_cases hc : c = 0
      · simp [hc]
      · rw [if_pos hc] at hnone
        exact absurd hnone (by simp)
  · unfold stepMulti
    cases y? with
    | none => rfl
    | some yh =>
      simp only []
      cases hz : getZero cc t with
      | none => cases yh <;> rfl
      | nan => cases yh <;> rfl
      | num c =>
        cases yh with
        | none => rfl
        | nan => rfl
        | num h =>
          unfold closeTouch at hnone
          rw [hz] at hnone
          simp only [] at hnone
          by_cases hc : c = 0
          · simp [hc]
          · rw [if_pos hc] at hnone
            exact absurd hnone (by simp)
  · unfold stepMulti
    cases y? with
    | none => rfl
    | some yh =>
      cases yh with
      | none =>
        simp only []
        cases hz : getZero cc t <;> rfl
      | nan =>
        simp only []
        cases hz : getZero cc t <;> rfl
      | num h => simp [multiGate] at hg
  · obtain ⟨hz, hc⟩ := closeTouch_some cc t c hct
    constructor
    · rw [stepSingle_fst]
      have hevs : stepSingleEvs S cc t PyVal.nan = [] := by
        unfold stepSingleEvs
        rw [hz]
        simp only []
        rw [if_pos hc]
      rw [hevs, List.append_nil]
    · rw [stepSingle_snd, hct]
      simp only [Option.isSome_some, if_true, Option.getD_some]
      exact Store.set_self _ _ _

/-- Witness for C3's amended claim at a concrete input. -/
theorem c3_skip_frame_amended_witness :
    (closeTouch msftCloseCol "MSFT" = Option.none →
      (∀ yh, stepSingle [msftStock] msftCloseCol "MSFT" yh ([], emptyStore) =
          ([], emptyStore)) ∧
        (∀ y?, stepMulti [msftStock] msftCloseCol y? "MSFT" ([], emptyStore) =
          ([], emptyStore))) ∧
    (∀ y?, multiGate y? = false →
      stepMulti [msftStock] msftCloseCol y? "MSFT" ([], emptyStore) =
        ([], emptyStore)) ∧
    (∀ c : ℚ, closeTouch msftCloseCol "MSFT" = some c →
      (stepSingle [msftStock] msftCloseCol "MSFT" PyVal.nan
          ([], emptyStore)).1 = ([] : List NewHighEvent) ∧
        (stepSingle [msftStock] msftCloseCol "MSFT" PyVal.nan
          ([], emptyStore)).2 "MSFT" =
          some (max c (Store.getD emptyStore "MSFT"))) :=
  c3_skip_frame_amended [msftStock] msftCloseCol "MSFT" ([], emptyStore)

/-- C5 counterexample: `save_json` truncates the target file in place before
writing the new text; a crash between those two primitive steps leaves the
file holding neither the old mapping nor the new one (it is empty) — a
corrupt partial file a later reader can observe. -/
theorem c5_save_crash_counterexample :
    crashAfter 1 (save_json "52week_highs.json" "NEW")
        (fun p => if p = "52week_highs.json" then some "OLD" else Option.none)
        "52week_highs.json" = some "" ∧
      ((fun p => if p = "52week_highs.json" then some "OLD" else Option.none :
          Fs) "52week_highs.json" ≠ some "") ∧
      (("NEW" : String) ≠ "") := by
  refine ⟨?_, by simp, by simp⟩
  simp [crashAfter, applyOps, save_json, applyOp]

/-- C5 amended: the mapping is persisted exactly once per run, and only
after all batch fetches (the save is the final effect of the run and carries
the post-loop store); but the write is a direct truncate-then-write of the
target path — not an atomic write-to-temp-then-replace — so a completed save
replaces the content while a crash after the truncation leaves an empty
partial file. -/
theorem c5_persist_once_direct (S : List Stock) (cc : String → Option PyVal)
    (hists : Nat → HistResult) (st : Store) :
    (run52wTraced S cc hists st).1.filter Eff.isSave =
        [Eff.saveStore (run52w S cc hists st).2] ∧
      (run52wTraced S cc hists st).1.getLast? =
        some (Eff.saveStore (run52w S cc hists st).2) ∧
      (∀ p c : String, ∀ fs : Fs, applyOps (save_json p c) fs p = some c) ∧
      (∀ p c : String, ∀ fs : Fs,
        crashAfter 1 (save_json p c) fs p = some "") := by
  refine ⟨?_, ?_, ?_, ?_⟩
  · rw [run52wTraced_eq]
    simp [List.filter_append, List.filter_map, Eff.isSave, Function.comp]
  · rw [run52wTraced_eq]
    exact List.getLast?_concat _
  · intro p c fs
    simp [applyOps, save_json, applyOp]
  · intro p c fs
    simp [crashAfter, applyOps, save_json, applyOp]

/-- C6 counterexample: a store file that is unreadable for any reason other
than absence or JSON syntax (e.g. a PermissionError on open) makes the load
raise: the exception escapes instead of the tracker proceeding with an empty
mapping. -/
theorem c6_load_counterexample :
    loadStoredHighs ReadResult.ioError = Except.error PyErr.ioError := rfl

/-- C6 amended: an absent store file and a JSON-malformed one are both
treated as the empty mapping (a run from either is identical, seeding the
store from scratch) and a decoded mapping is used as-is; but any other read
error propagates out of the load. -/
theorem c6_load_amended (S : List Stock) (cc : String → Option PyVal)
    (hists : Nat → HistResult) (m : Store) :
    loadStoredHighs ReadResult.absent = Except.ok emptyStore ∧
      loadStoredHighs ReadResult.badJson = Except.ok emptyStore ∧
      loadStoredHighs (ReadResult.decoded m) = Except.ok m ∧
      trackerRun ReadResult.absent S cc hists =
        trackerRun ReadResult.badJson S cc hists ∧
      trackerRun ReadResult.ioError S cc hists =
        Except.error PyErr.ioError :=
  ⟨rfl, rfl, rfl, rfl, rfl⟩

/-- C7: the candidate set is the 200-prefix of the stable descending sort of
the day's valid snapshots by change_pct: at most 200 entries; a snapshot
left out ranks no higher than any candidate; and every emitted event's
ticker belongs to the candidate tickers, so a snapshot outside the top 200
can produce no event that run. -/
theorem c7_candidates_top200 (stocks : List Stock)
    (cc : String → Option PyVal) (hists : Nat → HistResult) (st : Store) :
    (candidates52 stocks).length ≤ 200 ∧
      (∃ l, l.Perm stocks ∧ List.Sorted stockGe l ∧
        candidates52 stocks = l.take 200) ∧
      (∀ x ∈ stocks, x ∉ candidates52 stocks →
        ∀ c ∈ candidates52 stocks, x.changePct ≤ c.changePct) ∧
      (∀ e ∈ (run52w stocks cc hists st).1,
        e.stock.ticker ∈ (candidates52 stocks).map Stock.ticker) := by
  refine ⟨?_, ?_, ?_, ?_⟩
  · unfold candidates52
    rw [List.length_take]
    exact min_le_left _ _
  · exact ⟨List.insertionSort stockGe stocks,
      List.perm_insertionSort stockGe stocks,
      List.sorted_insertionSort stockGe stocks, rfl⟩
  · intro x hx hnx c hc
    simp only [candidates52] at hnx hc
    have hsp : List.Pairwise stockGe
        (List.take 200 (List.insertionSort stockGe stocks) ++
          List.drop 200 (List.insertionSort stockGe stocks)) := by
      rw [List.take_append_drop]
      exact List.sorted_insertionSort stockGe stocks
    obtain ⟨-, -, hrel⟩ := List.pairwise_append.mp hsp
    have hx' : x ∈ List.insertionSort stockGe stocks :=
      (List.mem_insertionSort stockGe).mpr hx
    rw [← List.take_append_drop 200 (List.insertionSort stockGe stocks)] at hx'
    rcases List.mem_append.mp hx' with h | h
    · exact absurd h hnx
    · exact hrel c hc x h
  · intro e he
    rw [run52w_fst] at he
    obtain ⟨t, s, c, h, ht, hf, -, -, -, hsh⟩ :=
      run52wEvs_shape stocks cc hists e he
    subst hsh
    unfold findStock at hf
    have hbeq := List.find?_some hf
    have hst : s.ticker = t := by simpa using hbeq
    show s.ticker ∈ _
    rw [hst]
    exact ht

/-- Witness for C7 at a concrete input. -/
theorem c7_candidates_top200_witness :
    (candidates52 [appleStock]).length ≤ 200 ∧
      (∃ l, l.Perm [appleStock] ∧ List.Sorted stockGe l ∧
        candidates52 [appleStock] = l.take 200) ∧
      (∀ x ∈ [appleStock], x ∉ candidates52 [appleStock] →
        ∀ c ∈ candidates52 [appleStock], x.changePct ≤ c.changePct) ∧
      (∀ e ∈ (run52w [appleStock] appleCloseCol appleHists emptyStore).1,
        e.stock.ticker ∈ (candidates52 [appleStock]).map Stock.ticker) :=
  c7_candidates_top200 [appleStock] appleCloseCol appleHists emptyStore

/-- C8: the rendered 52-week list is the emitted events sorted by descending
beat_pct, truncated to the first 10; and an empty snapshot (hence candidate)
list yields an empty output list. -/
theorem c8_top10_output (stocks : List Stock) (cc : String → Option PyVal)
    (hists : Nat → HistResult) (st : Store) :
    (newHighsTop10 (run52w stocks cc hists st).1).length ≤ 10 ∧
      List.Sorted evGe (newHighsTop10 (run52w stocks cc hists st).1) ∧
      (∃ l, l.Perm (run52w stocks cc hists st).1 ∧ List.Sorted evGe l ∧
        newHighsTop10 (run52w stocks cc hists st).1 = l.take 10) ∧
      (∀ e ∈ newHighsTop10 (run52w stocks cc hists st).1,
        e ∈ (run52w stocks cc hists st).1) ∧
      (stocks = [] → newHighsTop10 (run52w stocks cc hists st).1 = []) := by
  refine ⟨?_, ?_, ?_, ?_, ?_⟩
  · unfold newHighsTop10
    rw [List.length_take]
    exact min_le_left _ _
  · exact List.Pairwise.sublist (List.take_sublist _ _)
      (List.sorted_insertionSort evGe _)
  · exact ⟨List.insertionSort evGe _, List.perm_insertionSort evGe _,
      List.sorted_insertionSort evGe _, rfl⟩
  · intro e he
    unfold newHighsTop10 at he
    have hmem := (List.take_sublist 10 _).mem he
    exact (List.mem_insertionSort evGe).mp hmem
  · rintro rfl
    rfl

/-- Witness for C8 at a concrete input (empty snapshot list). -/
theorem c8_top10_output_witness :
    (newHighsTop10 (run52w [] appleCloseCol appleHists emptyStore).1).length
        ≤ 10 ∧
      List.Sorted evGe
        (newHighsTop10 (run52w [] appleCloseCol appleHists emptyStore).1) ∧
      (∃ l, l.Perm (run52w [] appleCloseCol appleHists emptyStore).1 ∧
        List.Sorted evGe l ∧
        newHighsTop10 (run52w [] appleCloseCol appleHists emptyStore).1 =
          l.take 10) ∧
      (∀ e ∈ newHighsTop10 (run52w [] appleCloseCol appleHists emptyStore).1,
        e ∈ (run52w [] appleCloseCol appleHists emptyStore).1) ∧
      (([] : List Stock) = [] →
        newHighsTop10 (run52w [] appleCloseCol appleHists emptyStore).1 = []) :=
  c8_top10_output [] appleCloseCol appleHists emptyStore

/-- C9: for every ticker that yields a snapshot, the derived fields are
guarded totals: change_pct is the open-based formula exactly when the open
is a genuine strictly positive number (so the divisor is nonzero) and 0 when
it is missing/NaN/non-positive; volume_ratio is the Python division of the
raw volume by the trailing average exactly when the average is a genuine
strictly positive number (nonzero divisor) and 0 otherwise. -/
theorem c9_derived_fields_guarded (td : TodayData)
    (vd : String → Option PyVal) (t : String) (s : Stock)
    (hmk : mkStock td vd t = some s) :
    (∀ o : ℚ, getNone td.openPrice t = PyVal.num o → 0 < o →
      o ≠ 0 ∧ s.changePct = (s.close - o) / o * 100) ∧
    ((∀ o : ℚ, getNone td.openPrice t = PyVal.num o → ¬(0 < o)) →
      s.changePct = 0) ∧
    (∀ a : ℚ, getZero vd t = PyVal.num a → 0 < a →
      a ≠ 0 ∧ pyDivByNum (getNone td.volume t) a = some s.volRatio) ∧
    ((∀ a : ℚ, getZero vd t = PyVal.num a → ¬(0 < a)) →
      s.volRatio = PyVal.num 0) := by
  unfold mkStock at hmk
  cases hcl : getNone td.close t with
  | none => rw [hcl] at hmk; exact absurd hmk (by simp)
  | nan => rw [hcl] at hmk; exact absurd hmk (by simp)
  | num c =>
    rw [hcl] at hmk
    simp only [] at hmk
    by_cases hc : c = 0
    · rw [if_pos hc] at hmk
      exact absurd hmk (by simp)
    · rw [if_neg hc] at hmk
      rw [Option.map_eq_some'] at hmk
      obtain ⟨vr, hvr, hs⟩ := hmk
      subst hs
      refine ⟨?_, ?_, ?_, ?_⟩
      · intro o ho hpos
        refine ⟨ne_of_gt hpos, ?_⟩
        simp only []
        rw [ho]
        simp only []
        rw [if_pos hpos]
      · intro hall
        simp only []
        cases hop : getNone td.openPrice t with
        | none => rfl
        | nan => rfl
        | num o =>
          simp only []
          rw [if_neg (hall o hop)]
      · intro a ha hpos
        refine ⟨ne_of_gt hpos, ?_⟩
        unfold volRatioOf at hvr
        rw [ha] at hvr
        simp only [] at hvr
        rw [if_pos hpos] at hvr
        exact hvr
      · intro hall
        unfold volRatioOf at hvr
        cases hav : getZero vd t with
        | none =>
          rw [hav] at hvr
          simp only [] at hvr
          simp only []
          injection hvr with h
          exact h.symm
        | nan =>
          rw [hav] at hvr
          simp only [] at hvr
          simp only []
          injection hvr with h
          exact h.symm
        | num a =>
          rw [hav] at hvr
          simp only [] at hvr
          rw [if_neg (hall a hav)] at hvr
          simp only []
          injection hvr with h
          exact h.symm

/-- Witness for C9 at a concrete ticker. -/
theorem c9_derived_fields_guarded_witness :
    mkStock sampleTd sampleVd "AAPL" = some sampleSnap ∧
      ((∀ o : ℚ, getNone sampleTd.openPrice "AAPL" = PyVal.num o → 0 < o →
          o ≠ 0 ∧ sampleSnap.changePct = (sampleSnap.close - o) / o * 100) ∧
        ((∀ o : ℚ, getNone sampleTd.openPrice "AAPL" = PyVal.num o →
            ¬(0 < o)) → sampleSnap.changePct = 0) ∧
        (∀ a : ℚ, getZero sampleVd "AAPL" = PyVal.num a → 0 < a →
          a ≠ 0 ∧ pyDivByNum (getNone sampleTd.volume "AAPL") a =
            some sampleSnap.volRatio) ∧
        ((∀ a : ℚ, getZero sampleVd "AAPL" = PyVal.num a → ¬(0 < a)) →
          sampleSnap.volRatio = PyVal.num 0)) :=
  ⟨rfl, c9_derived_fields_guarded sampleTd sampleVd "AAPL" sampleSnap rfl⟩

/-- Meeting the 99% threshold bounds the beat percentage below by -1%. -/
theorem beatPctOf_ge_neg_one (c h : ℚ) (hth : h * (99 / 100) ≤ c) :
    -1 ≤ beatPctOf c h := by
  unfold beatPctOf
  by_cases hp : 0 < h
  · rw [if_pos hp, div_mul_eq_mul_div, le_div_iff₀ hp]
    nlinarith
  · rw [if_neg hp]
    norm_num

/-- C10: every emitted NewHighEvent carries beat_pct ≥ -1: with a positive
trailing high the emission threshold close ≥ 0.99·high forces the relative
shortfall to at most one percent, and with a non-positive trailing high
beat_pct is set to 0. -/
theorem c10_beatPct_lower_bound (S : List Stock) (cc : String → Option PyVal)
    (hists : Nat → HistResult) (st : Store) (e : NewHighEvent)
    (he : e ∈ (run52w S cc hists st).1) : -1 ≤ e.beatPct := by
  rw [run52w_fst] at he
  obtain ⟨t, s, c, h, -, -, -, -, hth, hsh⟩ := run52wEvs_shape S cc hists e he
  subst hsh
  exact beatPctOf_ge_neg_one c h hth

/-- Witness for C10 at a concrete emitted event. -/
theorem c10_beatPct_lower_bound_witness :
    (⟨appleStock, 161, (160 - 161) / 161 * 100⟩ : NewHighEvent) ∈
        (run52w [appleStock] appleCloseCol appleHists emptyStore).1 ∧
      -1 ≤ (⟨appleStock, 161, (160 - 161) / 161 * 100⟩ :
        NewHighEvent).beatPct := by
  have hlist : (run52w [appleStock] appleCloseCol appleHists emptyStore).1 =
      [⟨appleStock, 161, (160 - 161) / 161 * 100⟩] := by
    norm_num [run52w, candidates52, chunksPos, chunksGo, evalBatch,
      stepSingle, stepSingleEvs, getZero, findStock, beatPctOf, appleStock,
      appleCloseCol, appleHists, emptyStore, List.enum, List.enumFrom]
  have hmem : (⟨appleStock, 161, (160 - 161) / 161 * 100⟩ : NewHighEvent) ∈
      (run52w [appleStock] appleCloseCol appleHists emptyStore).1 := by
    rw [hlist]
    exact List.mem_singleton.mpr rfl
  exact ⟨hmem, c10_beatPct_lower_bound [appleStock] appleCloseCol appleHists
    emptyStore _ hmem⟩
